import Mathlib

/-!
# RootFile: `io::RootInFile<Entry>` and `io::RootOutFile<Entry>`

A shallow embedding of `src/io/RootInFile.h` and `src/io/RootOutFile.h`.

The two class templates sit on top of the ROOT library (`TFile`, `TTree`, `TChain`), which is
not part of the repository.  ROOT is modelled as a record store:

* a `World` holds the files on disk, each with its flags and its list of keys;
* a tree appends the staged record on each `Fill` and a chain delivers the `i`-th record of the
  concatenation of its files on `GetEntry(i)`;
* every call into the store that a property needs to observe is appended to `World.trace`.

C++ pointers are `Option`s (`none` is `nullptr`); dereferencing `nullptr` has no defined
behaviour and is the outcome `Result.undefined`.  A `throw` is the outcome `Result.thrown`,
carrying the state the objects are left in.  The macro `IO_ROOTFILE_CHECK` expands to `Check()`
when `IO_ROOTFILE_DEBUG` is defined and to nothing otherwise; the flag is the parameter `debug`.
`ULong64_t` values are naturals below `2 ^ 64`.
-/

namespace io

/-! ## Outcomes -/

/-- The three standard exceptions the headers throw. -/
inductive Exception where
  | runtime_error (what : String)
  | out_of_range (what : String)
  | logic_error (what : String)
  deriving DecidableEq, Repr

/-- Outcome of a member function: a value and the state left behind, an exception and the state
left behind, a null pointer dereference (`undefined`), or a loop cut off by its step bound
(`unfinished`). -/
inductive Result (σ α : Type) where
  | ok (value : α) (state : σ)
  | thrown (e : Exception) (state : σ)
  | undefined
  | unfinished
  deriving DecidableEq, Repr

/-- The `std::numeric_limits<ULong64_t>::max()` value. -/
def ULong64_max : Nat := 2 ^ 64 - 1

/-- Implicit conversion of a `ULong64_t` argument to the `Long64_t` parameter of the engine. -/
def toLong64 (i : Nat) : Int :=
  if i % 2 ^ 64 < 2 ^ 63 then ((i % 2 ^ 64 : Nat) : Int) else ((i % 2 ^ 64 : Nat) : Int) - 2 ^ 64

/-- The requirements on the template argument `Entry`: `Entry::Class_Name()` and `new Entry`. -/
class EntryClass (Entry : Type) where
  Class_Name : String
  construct : Entry

/-! ## The record store (ROOT) -/

/-- A tree: its name, the branch bound by `Branch` (if any) and the records filled so far. -/
structure TTree (Entry : Type) where
  fName : String
  fBranch : Option String
  fEntries : List Entry
  deriving DecidableEq, Repr

/-- An object stored under a key of a file: a tree, or any other object with its class name. -/
inductive TObject (Entry : Type) where
  | tree (t : TTree Entry)
  | object (className : String) (payload : Nat)
  deriving DecidableEq, Repr

/-- Class name of a stored object. -/
def TObject.ClassName {Entry : Type} : TObject Entry → String
  | .tree _ => "TTree"
  | .object c _ => c

/-- A `TFile` object: the path, whether it is a zombie (corrupt, or not created), whether it was
recovered, whether it is open and writable, and its keys (newest first).  The disk stores each
file as the object that opening it for reading yields. -/
structure TFile (Entry : Type) where
  fName : String
  zombie : Bool
  recovered : Bool
  isOpen : Bool
  writable : Bool
  keys : List (String × TObject Entry)
  deriving DecidableEq, Repr

/-- Calls into the store that are recorded. -/
inductive Call where
  | cerr (msg : String)
  | TFile_Open (name : String)
  | TFile_delete (name : String)
  | TFile_Write (name : String)
  | TTree_Fill
  | TChain_GetEntry (entry : Int)
  | TChain_delete
  | Entry_delete
  deriving DecidableEq, Repr

/-- The store: files on disk, paths where no file can be created, whether a dictionary for
`Entry` is loaded (without it `TTree::Branch` binds nothing), and the recorded calls. -/
structure World (Entry : Type) where
  disk : List (String × TFile Entry)
  locked : List String
  dictionary : Bool
  trace : List Call
  deriving DecidableEq, Repr

section Engine
variable {Entry : Type}

/-- Append a call to the trace. -/
def World.log (w : World Entry) (c : Call) : World Entry :=
  { w with trace := w.trace ++ [c] }

/-- Write `msg` to `std::cerr` when `verbose`. -/
def World.cerrIf (w : World Entry) (verbose : Bool) (msg : String) : World Entry :=
  if verbose then w.log (.cerr msg) else w

/-- The file stored under `name`, if one can be opened; an empty name opens nothing. -/
def World.file (w : World Entry) (name : String) : Option (TFile Entry) :=
  if name = "" then none else w.disk.lookup name

/-- Engine call `TFile::Open(name)`: `nullptr` or a (possibly zombie) file object. -/
def TFile.Open (w : World Entry) (name : String) : Option (TFile Entry) × World Entry :=
  (w.file name, w.log (.TFile_Open name))

/-- Engine call `delete file` on a file opened for reading (no effect on `nullptr`). -/
def TFile.delete (w : World Entry) : Option (TFile Entry) → World Entry
  | none => w
  | some f => w.log (.TFile_delete f.fName)

/-- Engine call `TFile(name)`, the constructor of a temporary opened for reading: always an
object, a zombie when no file can be opened under `name`. -/
def TFile.construct (w : World Entry) (name : String) : TFile Entry × World Entry :=
  (match w.file name with
    | some f => f
    | none => { fName := name, zombie := true, recovered := false, isOpen := false,
                writable := false, keys := [] },
   w.log (.TFile_Open name))

/-- Engine call `file->IsZombie()`. -/
def TFile.IsZombie (f : TFile Entry) : Bool := f.zombie

/-- Engine call `file->TestBit(TFile::kRecovered)`. -/
def TFile.TestBit_kRecovered (f : TFile Entry) : Bool := f.recovered

/-- Engine call `file->GetListOfKeys()->Contains(name)`. -/
def TFile.Contains (f : TFile Entry) (name : String) : Bool :=
  f.keys.any (fun k => k.1 == name)

/-- Engine call `file->GetObjectChecked(name, className)`: the object under the key `name`,
provided the file is readable and the object is of class `className`. -/
def TFile.GetObjectChecked (f : TFile Entry) (name className : String) : Option (TObject Entry) :=
  if f.zombie then none else
    match f.keys.lookup name with
    | some o => if o.ClassName = className then some o else none
    | none => none

/-- The tree stored under `name`, if the object there is a tree. -/
def TFile.GetTree (f : TFile Entry) (name : String) : Option (TTree Entry) :=
  match f.GetObjectChecked name "TTree" with
  | some (.tree t) => some t
  | _ => none

/-- Engine call `tree->GetEntries()`. -/
def TTree.GetEntries (t : TTree Entry) : Nat := t.fEntries.length

/-- A chain: the tree name, the titles of its elements in the order they were added, the branch
bound by `SetBranchAddress` and the statuses requested by `SetBranchStatus`. -/
structure TChain where
  fName : String
  fFiles : List String
  fBranchAddress : Option String
  fBranchStatus : List (String × Bool)
  deriving DecidableEq, Repr

/-- Engine call `new TChain(treeName)`. -/
def TChain.new (treeName : String) : TChain :=
  { fName := treeName, fFiles := [], fBranchAddress := none, fBranchStatus := [] }

/-- Engine call `chain->Add(name)`: connects one file for a file name and none for an empty
name; returns the number of files connected.  (Wildcards are not modelled.) -/
def TChain.Add (c : TChain) (name : String) : Nat × TChain :=
  if name = "" then (0, c) else (1, { c with fFiles := c.fFiles ++ [name] })

/-- Engine call `chain->SetBranchAddress(branch, &buffer)`. -/
def TChain.SetBranchAddress (c : TChain) (branch : String) : TChain :=
  { c with fBranchAddress := some branch }

/-- Engine call `chain->SetBranchStatus(branch, status)`. -/
def TChain.SetBranchStatus (c : TChain) (branch : String) (status : Bool) : TChain :=
  { c with fBranchStatus := c.fBranchStatus ++ [(branch, status)] }

/-- Engine call `chain->GetListOfFiles()`. -/
def TChain.GetListOfFiles (c : TChain) : Option (List String) := some c.fFiles

/-- The records the file `name` contributes to a chain over trees called `treeName`, each
paired with the branch it sits in. -/
def World.records (w : World Entry) (treeName name : String) : List (Option String × Entry) :=
  match w.file name with
  | none => []
  | some f =>
    match f.GetTree treeName with
    | none => []
    | some t => t.fEntries.map (fun e => (t.fBranch, e))

/-- Number of records the file `name` holds in its tree `treeName`. -/
def World.count (w : World Entry) (treeName name : String) : Nat :=
  (w.records treeName name).length

/-- The logical index space of a chain: the records of its files, in chain order. -/
def TChain.records (w : World Entry) (c : TChain) : List (Option String × Entry) :=
  (c.fFiles.map (w.records c.fName)).flatten

/-- Engine call `chain->GetEntries()`. -/
def TChain.GetEntries (w : World Entry) (c : TChain) : Nat := (c.records w).length

/-- Engine call `chain->GetEntry(entry)`: the number of bytes read (`0` when the entry does not
exist, abstracted to `1` when it does) and the record delivered to the bound address.  The
statuses requested by `SetBranchStatus` are recorded in the chain but do not change what is
read. -/
def TChain.GetEntry (w : World Entry) (c : TChain) (entry : Int) : Int × Option Entry :=
  if entry < 0 then (0, none) else
    match (c.records w).get? entry.toNat with
    | none => (0, none)
    | some (b, e) => (1, if b.isSome && b == c.fBranchAddress then some e else none)

/-- Replace or add the file stored under `name`. -/
def World.store (w : World Entry) (name : String) (f : TFile Entry) : World Entry :=
  { w with disk := (name, f) :: w.disk.filter (fun p => p.1 != name) }

/-- Engine call `new TFile(filename, "recreate", "", compression)`: a zombie when the file
cannot be created; otherwise an open, writable, empty file object, and the file on disk is
truncated (it stays unreadable until the object is deleted). -/
def TFile.recreate (w : World Entry) (filename : String) (_compression : Int) :
    TFile Entry × World Entry :=
  if filename = "" ∨ filename ∈ w.locked then
    ({ fName := filename, zombie := true, recovered := false, isOpen := false,
       writable := false, keys := [] }, w)
  else
    ({ fName := filename, zombie := false, recovered := false, isOpen := true,
       writable := true, keys := [] },
     w.store filename { fName := filename, zombie := true, recovered := false, isOpen := true,
                        writable := false, keys := [] })

/-- Engine call `file->IsOpen()`. -/
def TFile.IsOpen (f : TFile Entry) : Bool := f.isOpen

/-- Engine call `file->IsWritable()`. -/
def TFile.IsWritable (f : TFile Entry) : Bool := f.writable

/-- Engine call `file->Write()`: the tree attached to the file becomes one of its keys. -/
def TFile.Write (f : TFile Entry) (t : TTree Entry) : TFile Entry :=
  { f with keys := (t.fName, .tree t) :: f.keys }

/-- Engine call `file->WriteObject(&obj, name)`; nothing is written to a read-only file. -/
def TFile.WriteObject (f : TFile Entry) (name className : String) (payload : Nat) :
    TFile Entry :=
  if f.writable then { f with keys := (name, .object className payload) :: f.keys } else f

/-- Engine call `delete file` on a file being written: the file is closed and its keys are on
disk from then on. -/
def TFile.close (w : World Entry) (f : TFile Entry) : World Entry :=
  (w.store f.fName { f with zombie := false, isOpen := true, writable := false }).log
    (.TFile_delete f.fName)

/-- Engine call `new TTree(name, title)`. -/
def TTree.new (name : String) : TTree Entry :=
  { fName := name, fBranch := none, fEntries := [] }

/-- Engine call `tree->Branch(name, className, &ptr, buffSize)`: with a dictionary for the
class the branch is created and a null `ptr` is made to point to a new object; without one
nothing is bound. -/
def TTree.Branch [EntryClass Entry] (w : World Entry) (t : TTree Entry) (name : String)
    (ptr : Option Entry) (_buffSize : Int) : TTree Entry × Option Entry :=
  if w.dictionary then
    ({ t with fBranch := some name }, some (ptr.getD EntryClass.construct))
  else (t, ptr)

/-- Engine call `tree->Fill()`: appends the record the bound pointer refers to. -/
def TTree.Fill (t : TTree Entry) (ptr : Option Entry) : TTree Entry :=
  match t.fBranch, ptr with
  | some _, some e => { t with fEntries := t.fEntries ++ [e] }
  | _, _ => t

end Engine

/-! ## `RootInFile<Entry>` -/

/-- Data members of `RootInFile<Entry>`; `addr` is the address of the object, which is what
`Iterator::IsSameFile` compares. -/
structure RootInFile (Entry : Type) where
  addr : Nat
  fChain : Option TChain
  fCurrentEntryIndex : Nat
  fEntryBuffer : Option Entry
  deriving DecidableEq, Repr

/-- Data members of `RootInFile<Entry>::Iterator`: the reader it refers to and the index. -/
structure Iterator where
  fFile : Nat
  fIndex : Nat
  deriving DecidableEq, Repr

namespace Iterator

/-- Source: `Iterator::IsSameFile`. -/
def IsSameFile (a b : Iterator) : Except Exception Unit :=
  if a.fFile ≠ b.fFile then
    .error (.logic_error "RootInFile::Iterator: mixing iterators of different RootFiles")
  else .ok ()

/-- Source: `Iterator::operator==`. -/
def eq (a b : Iterator) : Except Exception Bool :=
  match a.IsSameFile b with
  | .error e => .error e
  | .ok () => .ok (a.fIndex == b.fIndex)

/-- Source: `Iterator::operator!=`. -/
def ne (a b : Iterator) : Except Exception Bool :=
  match a.IsSameFile b with
  | .error e => .error e
  | .ok () =>
    match a.eq b with
    | .error e => .error e
    | .ok r => .ok (!r)

/-- Source: `Iterator::operator++` (prefix), on a `ULong64_t`. -/
def inc (a : Iterator) : Iterator := { a with fIndex := (a.fIndex + 1) % 2 ^ 64 }

/-- Source: `Iterator::operator+=`, the `int` converted to `ULong64_t`. -/
def add (a : Iterator) (n : Int) : Iterator :=
  { a with fIndex := (((a.fIndex : Int) + n) % 2 ^ 64).toNat }

end Iterator

namespace RootInFile
variable {Entry : Type}

/-- State of the store together with one reader. -/
abbrev St (Entry : Type) := World Entry × RootInFile Entry

/-- Data member initialisers of `RootInFile` for an object at address `addr`. -/
def init (addr : Nat) : RootInFile Entry :=
  { addr := addr, fChain := none, fCurrentEntryIndex := ULong64_max, fEntryBuffer := none }

/-- Source: `RootInFile::Close`. -/
def Close (w : World Entry) (r : RootInFile Entry) : St Entry :=
  let w1 := match r.fEntryBuffer with
    | some _ => w.log .Entry_delete
    | none => w
  let w2 := match r.fChain with
    | some _ => w1.log .TChain_delete
    | none => w1
  (w2, { r with fCurrentEntryIndex := ULong64_max, fEntryBuffer := none, fChain := none })

/-- Source: `RootInFile::Error`. -/
def Error {α : Type} (w : World Entry) (r : RootInFile Entry) (message : String) :
    Result (St Entry) α :=
  .thrown (.runtime_error message) (Close w r)

/-- Source: `RootInFile::Check`. -/
def Check (w : World Entry) (r : RootInFile Entry) : Result (St Entry) Unit :=
  if r.fChain.isNone || r.fEntryBuffer.isNone then
    Error w r "RootInFile::Check: no entry found"
  else .ok () (w, r)

/-- The macro `IO_ROOTFILE_CHECK`: `Check()` when `IO_ROOTFILE_DEBUG` is defined, else nothing. -/
def IO_ROOTFILE_CHECK (debug : Bool) (w : World Entry) (r : RootInFile Entry) :
    Result (St Entry) Unit :=
  if debug then Check w r else .ok () (w, r)

/-- Source: `RootInFile::GetSize`; the `Long64_t` count is returned as a `ULong64_t`. -/
def GetSize (debug : Bool) (w : World Entry) (r : RootInFile Entry) : Result (St Entry) Nat :=
  match IO_ROOTFILE_CHECK debug w r with
  | .ok () (w, r) =>
    match r.fChain with
    | none => .undefined
    | some c => .ok (c.GetEntries w % 2 ^ 64) (w, r)
  | .thrown e s => .thrown e s
  | .undefined => .undefined
  | .unfinished => .unfinished

/-- Source: `RootInFile::operator[]`.  The value returned is the content of `*fEntryBuffer`. -/
def index (debug : Bool) (w : World Entry) (r : RootInFile Entry) (i : Nat) :
    Result (St Entry) Entry :=
  match IO_ROOTFILE_CHECK debug w r with
  | .ok () (w, r) =>
    let fetched : Result (St Entry) Unit :=
      if i ≠ r.fCurrentEntryIndex then
        match r.fChain with
        | none => .undefined
        | some c =>
          let got := c.GetEntry w (toLong64 i)
          let w1 := w.log (.TChain_GetEntry (toLong64 i))
          let r1 := { r with fEntryBuffer := match got.2 with
            | some e => some e
            | none => r.fEntryBuffer }
          if got.1 = 0 then
            .thrown (.out_of_range
              "RootInFile::operator[]: requested entry not found in file chain") (w1, r1)
          else .ok () (w1, { r1 with fCurrentEntryIndex := i })
      else .ok () (w, r)
    match fetched with
    | .ok () (w, r) =>
      match IO_ROOTFILE_CHECK debug w r with
      | .ok () (w, r) =>
        match r.fEntryBuffer with
        | none => .undefined
        | some e => .ok e (w, r)
      | .thrown e s => .thrown e s
      | .undefined => .undefined
      | .unfinished => .unfinished
    | .thrown e s => .thrown e s
    | .undefined => .undefined
    | .unfinished => .unfinished
  | .thrown e s => .thrown e s
  | .undefined => .undefined
  | .unfinished => .unfinished

/-- Source: `RootInFile::Begin` (and `begin`). -/
def Begin (debug : Bool) (w : World Entry) (r : RootInFile Entry) : Result (St Entry) Iterator :=
  match IO_ROOTFILE_CHECK debug w r with
  | .ok () (w, r) => .ok { fFile := r.addr, fIndex := 0 } (w, r)
  | .thrown e s => .thrown e s
  | .undefined => .undefined
  | .unfinished => .unfinished

/-- Source: `RootInFile::End` (and `end`). -/
def End (debug : Bool) (w : World Entry) (r : RootInFile Entry) : Result (St Entry) Iterator :=
  match IO_ROOTFILE_CHECK debug w r with
  | .ok () (w, r) =>
    match GetSize debug w r with
    | .ok n (w, r) => .ok { fFile := r.addr, fIndex := n } (w, r)
    | .thrown e s => .thrown e s
    | .undefined => .undefined
    | .unfinished => .unfinished
  | .thrown e s => .thrown e s
  | .undefined => .undefined
  | .unfinished => .unfinished

/-- The loop of the range constructor `std::vector<Entry>(first, last)` over input iterators:
`for (; first != last; ++first) push_back(*first)`, where `*first` is `fFile[fIndex]`.  The
first argument bounds the number of iterations. -/
def readLoop (debug : Bool) : Nat → World Entry → RootInFile Entry → Iterator → Iterator →
    List Entry → Result (St Entry) (List Entry)
  | 0, _, _, _, _, _ => .unfinished
  | fuel + 1, w, r, first, last, acc =>
    match first.ne last with
    | .error e => .thrown e (w, r)
    | .ok false => .ok acc (w, r)
    | .ok true =>
      match index debug w r first.fIndex with
      | .ok e (w, r) => readLoop debug fuel w r first.inc last (acc ++ [e])
      | .thrown e s => .thrown e s
      | .undefined => .undefined
      | .unfinished => .unfinished

/-- Source: `RootInFile::ReadAll`.  An index takes at most `2 ^ 64` values, which bounds the
loop.  `begin()` and `end()` leave the state as it is when they return, so the order in which
the two arguments are evaluated makes no difference. -/
def ReadAll (debug : Bool) (w : World Entry) (r : RootInFile Entry) :
    Result (St Entry) (List Entry) :=
  match Begin debug w r with
  | .ok first (w, r) =>
    match End debug w r with
    | .ok last (w, r) => readLoop debug (2 ^ 64) w r first last []
    | .thrown e s => .thrown e s
    | .undefined => .undefined
    | .unfinished => .unfinished
  | .thrown e s => .thrown e s
  | .undefined => .undefined
  | .unfinished => .unfinished

/-- The loop of `RootInFile::Find`:
`for (c = next(); !obj && c; c = next()) TFile(c->GetTitle()).GetObject(name, obj)`.  The
temporary `TFile` is constructed and destroyed once for every element visited. -/
def findLoop (T name : String) : World Entry → Option (TObject Entry) → List String →
    Option (TObject Entry) × World Entry
  | w, obj, [] => (obj, w)
  | w, some o, _ :: _ => (some o, w)
  | w, none, title :: rest =>
    let opened := TFile.construct w title
    let obj := opened.1.GetObjectChecked name T
    findLoop T name (TFile.delete opened.2 (some opened.1)) obj rest

/-- Source: `RootInFile::Find<T>`, the class `T` given by its name. -/
def Find (w : World Entry) (r : RootInFile Entry) (T name : String) :
    Result (St Entry) (Option (TObject Entry)) :=
  match r.fChain.bind TChain.GetListOfFiles with
  | none => Error w r "RootInFile::Find: file not open"
  | some files =>
    let found := findLoop T name w none files
    .ok found.1 (found.2, r)

/-- Source: `RootInFile::Get<T>`. -/
def Get (w : World Entry) (r : RootInFile Entry) (T name : String) :
    Result (St Entry) (TObject Entry) :=
  match Find w r T name with
  | .ok none (w, r) => Error w r ("RootInFile::Get: no object '" ++ name ++ "' found in file")
  | .ok (some o) s => .ok o s
  | .thrown e s => .thrown e s
  | .undefined => .undefined
  | .unfinished => .unfinished

/-- Source: `RootInFile::Has<T>`. -/
def Has (w : World Entry) (r : RootInFile Entry) (T name : String) : Result (St Entry) Bool :=
  match Find w r T name with
  | .ok obj s => .ok obj.isSome s
  | .thrown e s => .thrown e s
  | .undefined => .undefined
  | .unfinished => .unfinished

/-- Source: `RootInFile::SetBranchStatus`. -/
def SetBranchStatus (w : World Entry) (r : RootInFile Entry) (branch : String) (status : Bool) :
    Result (St Entry) Unit :=
  match Check w r with
  | .ok () (w, r) =>
    match r.fChain with
    | none => .undefined
    | some c => .ok () (w, { r with fChain := some (c.SetBranchStatus branch status) })
  | .thrown e s => .thrown e s
  | .undefined => .undefined
  | .unfinished => .unfinished

/-- Source: `RootInFile::GetChain`. -/
def GetChain (w : World Entry) (r : RootInFile Entry) : Result (St Entry) TChain :=
  match Check w r with
  | .ok () (w, r) =>
    match r.fChain with
    | none => .undefined
    | some c => .ok c (w, r)
  | .thrown e s => .thrown e s
  | .undefined => .undefined
  | .unfinished => .unfinished

/-- Source: `RootInFile::IsValid` (static).  Returns `isOk` and the store afterwards. -/
def IsValid (w : World Entry) (name treeName : String) (rejectRecovered verbose : Bool) :
    Bool × World Entry :=
  let opened := TFile.Open w name
  let w := opened.2
  let checked : Bool × World Entry :=
    match opened.1 with
    | none =>
      (false, w.cerrIf verbose ("RootInFile::IsValid: File '" ++ name ++ "' cannot be opened!\n"))
    | some file =>
      if file.IsZombie then
        (false, w.cerrIf verbose ("RootInFile::IsValid: File '" ++ name ++ "' is a zombie!\n"))
      else if rejectRecovered && file.TestBit_kRecovered then
        (false, w.cerrIf verbose
          ("RootInFile::IsValid: Reject recovered file '" ++ name ++ "'!\n"))
      else if !file.Contains treeName then
        (false, w.cerrIf verbose ("RootInFile::IsValid: File '" ++ name ++ "' has no TTree '"
          ++ treeName ++ "'!\n"))
      else
        match file.GetTree treeName with
        | none =>
          (false, w.cerrIf verbose ("RootInFile::IsValid: File '" ++ name ++ "' has no TTree '"
            ++ treeName ++ "'!\n"))
        | some tree =>
          if tree.GetEntries = 0 then
            (false, w.cerrIf verbose
              ("RootInFile::IsValid: TTree in file '" ++ name ++ "' has no entries!\n"))
          else (true, w)
  (checked.1, TFile.delete checked.2 opened.1)

/-- The loop over `filenames` in `RootInFile::Open`; carries the store, the chain and `nFiles`. -/
def openLoop (treeName : String) (checkValidity skipRecovered verbose : Bool) :
    World Entry → TChain → Nat → List String → World Entry × TChain × Nat
  | w, chain, nFiles, [] => (w, chain, nFiles)
  | w, chain, nFiles, name :: rest =>
    let valid : Bool × World Entry :=
      if checkValidity then IsValid w name treeName skipRecovered verbose else (true, w)
    if checkValidity && !valid.1 then
      openLoop treeName checkValidity skipRecovered verbose
        (valid.2.cerrIf verbose ("RooInFile::Open: File '" ++ name ++ "' not valid!\n"))
        chain nFiles rest
    else
      let added := chain.Add name
      openLoop treeName checkValidity skipRecovered verbose valid.2 added.2 (nFiles + added.1) rest

/-- Source: `RootInFile::Open`. -/
def Open [EntryClass Entry] (w : World Entry) (r : RootInFile Entry) (filenames : List String)
    (treeName branchName : String) (checkValidity skipRecovered verbose : Bool) :
    Result (St Entry) Unit :=
  let treeName := if treeName = "" then EntryClass.Class_Name Entry ++ "Tree" else treeName
  let r := { r with fChain := some (TChain.new treeName) }
  let looped := openLoop treeName checkValidity skipRecovered verbose w (TChain.new treeName) 0
    filenames
  let w := looped.1
  let r := { r with fChain := some looped.2.1 }
  if looped.2.2 = 0 then
    let w := w.cerrIf verbose "RootInFile::Open: no valid files!\n"
    .ok () (w.log .TChain_delete, { r with fChain := none })
  else
    let r := { r with fEntryBuffer := some (EntryClass.construct : Entry) }
    let branchName := if branchName = "" then EntryClass.Class_Name Entry else branchName
    let r := { r with fChain := r.fChain.map (fun c => c.SetBranchAddress branchName) }
    Check w r

/-- Source: the constructors of `RootInFile`, for an object placed at address `addr`; the one
taking a single `filename` passes the list of that one name. -/
def new [EntryClass Entry] (addr : Nat) (w : World Entry) (filenames : List String)
    (treeName branchName : String) (checkValidity skipRecovered verbose : Bool) :
    Result (St Entry) Unit :=
  Open w (init addr) filenames treeName branchName checkValidity skipRecovered verbose

end RootInFile

/-! ## `RootOutFile<Entry>` -/

/-- Data members of `RootOutFile<Entry>`; `fEntryPtr` is modelled by the record it points to. -/
structure RootOutFile (Entry : Type) where
  fFile : Option (TFile Entry)
  fTree : Option (TTree Entry)
  fEntryPtr : Option Entry
  deriving DecidableEq, Repr

namespace RootOutFile
variable {Entry : Type}

/-- State of the store together with one writer. -/
abbrev St (Entry : Type) := World Entry × RootOutFile Entry

/-- Data member initialisers of `RootOutFile`. -/
def init : RootOutFile Entry := { fFile := none, fTree := none, fEntryPtr := none }

/-- Source: `RootOutFile::Close`. -/
def Close (w : World Entry) (o : RootOutFile Entry) : St Entry :=
  match o.fFile, o.fTree with
  | some f, some t =>
    if f.IsWritable then
      let w1 := w.log (.TFile_Write f.fName)
      let w2 := TFile.close w1 (f.Write t)
      (w2, { o with fFile := none, fTree := none, fEntryPtr := none })
    else (w, { o with fEntryPtr := none })
  | _, _ => (w, { o with fEntryPtr := none })

/-- Source: `RootOutFile::Error`. -/
def Error {α : Type} (w : World Entry) (o : RootOutFile Entry) (message : String) :
    Result (St Entry) α :=
  .thrown (.runtime_error message) (Close w o)

/-- Source: `RootOutFile::Check`. -/
def Check (w : World Entry) (o : RootOutFile Entry) : Result (St Entry) Unit :=
  let bad := match o.fFile with
    | none => true
    | some f => f.IsZombie || !f.IsOpen
  if bad then Error w o "file open failed"
  else if o.fTree.isNone || o.fEntryPtr.isNone then Error w o "tree error"
  else .ok () (w, o)

/-- The macro `IO_ROOTFILE_CHECK`: `Check()` when `IO_ROOTFILE_DEBUG` is defined, else nothing. -/
def IO_ROOTFILE_CHECK (debug : Bool) (w : World Entry) (o : RootOutFile Entry) :
    Result (St Entry) Unit :=
  if debug then Check w o else .ok () (w, o)

/-- Source: `RootOutFile::Fill(const Entry&)`. -/
def Fill (debug : Bool) (w : World Entry) (o : RootOutFile Entry) (entry : Entry) :
    Result (St Entry) Unit :=
  let o := { o with fEntryPtr := some entry }
  match IO_ROOTFILE_CHECK debug w o with
  | .ok () (w, o) =>
    match o.fTree with
    | none => .undefined
    | some t => .ok () (w.log .TTree_Fill, { o with fTree := some (t.Fill o.fEntryPtr) })
  | .thrown e s => .thrown e s
  | .undefined => .undefined
  | .unfinished => .unfinished

/-- Source: `RootOutFile::Fill(const std::vector<Entry>&)`. -/
def FillAll (debug : Bool) : World Entry → RootOutFile Entry → List Entry →
    Result (St Entry) Unit
  | w, o, [] => .ok () (w, o)
  | w, o, e :: entries =>
    match Fill debug w o e with
    | .ok () (w, o) => FillAll debug w o entries
    | .thrown e s => .thrown e s
    | .undefined => .undefined
    | .unfinished => .unfinished

/-- Source: `RootOutFile::Write<T>`, the object given by its class name and content. -/
def Write (w : World Entry) (o : RootOutFile Entry) (className : String) (payload : Nat) :
    Result (St Entry) Unit :=
  match o.fFile with
  | none => Error w o "file not open"
  | some f => .ok () (w, { o with fFile := some (f.WriteObject className className payload) })

/-- Source: `RootOutFile::Open`. -/
def Open [EntryClass Entry] (w : World Entry) (o : RootOutFile Entry) (filename : String)
    (compression buffSize : Int) : Result (St Entry) Unit :=
  let created := TFile.recreate w filename compression
  let w := created.2
  let o := { o with fFile := some created.1 }
  let treeName := EntryClass.Class_Name Entry ++ "Tree"
  let o := { o with fTree := some (TTree.new treeName) }
  let o := { o with fEntryPtr := none }
  let bound := (TTree.new treeName).Branch w (EntryClass.Class_Name Entry) o.fEntryPtr buffSize
  let o := { o with fTree := some bound.1, fEntryPtr := bound.2 }
  Check w o

/-- Source: the constructor of `RootOutFile`. -/
def new [EntryClass Entry] (w : World Entry) (filename : String) (compression buffSize : Int) :
    Result (St Entry) Unit :=
  Open w init filename compression buffSize

end RootOutFile

/-! ## Definitions used to state the properties -/

section Statements
variable {Entry : Type}

/-- The decision `IsValid` takes, as a function of the file found under `name`. -/
def validFile (treeName : String) (rejectRecovered : Bool) : Option (TFile Entry) → Bool
  | none => false
  | some file =>
    !file.IsZombie && !(rejectRecovered && file.TestBit_kRecovered) && file.Contains treeName &&
      (match file.GetTree treeName with
        | some tree => tree.GetEntries != 0
        | none => false)

/-- Whether the loop of `Open` adds `name` to the chain: it passes the validity check when one
is asked for, and the chain connects a file for it. -/
def admits (treeName : String) (checkValidity skipRecovered : Bool) (w : World Entry)
    (name : String) : Bool :=
  (!checkValidity || validFile treeName skipRecovered (w.file name)) && name != ""

/-- The tree name `Open` uses: the default `<Class_Name>Tree` for an empty argument. -/
def treeNameOf (Entry : Type) [EntryClass Entry] (treeName : String) : String :=
  if treeName = "" then EntryClass.Class_Name Entry ++ "Tree" else treeName

/-- The object of class `T` the file `title` holds under `name`, if any. -/
def World.holds (w : World Entry) (T name title : String) : Option (TObject Entry) :=
  match w.file title with
  | some f => f.GetObjectChecked name T
  | none => none

/-- A closed reader: no chain, no buffer, the cache tag at the sentinel. -/
def RootInFile.IsClosed (r : RootInFile Entry) : Prop :=
  r.fChain = none ∧ r.fEntryBuffer = none ∧ r.fCurrentEntryIndex = ULong64_max

/-- A closed writer: no file, no tree, no staged record. -/
def RootOutFile.IsClosed (o : RootOutFile Entry) : Prop :=
  o.fFile = none ∧ o.fTree = none ∧ o.fEntryPtr = none

instance [DecidableEq Entry] (r : RootInFile Entry) : Decidable r.IsClosed :=
  inferInstanceAs (Decidable (_ ∧ _ ∧ _))

instance [DecidableEq Entry] (o : RootOutFile Entry) : Decidable o.IsClosed :=
  inferInstanceAs (Decidable (_ ∧ _ ∧ _))

end Statements

/-! ## A concrete store, for evaluating the code -/

/-- Records are naturals in the examples; the class is called `Event`. -/
instance instEntryClassNat : EntryClass Nat where
  Class_Name := "Event"
  construct := 0

/-- A readable file `name` holding the tree `EventTree` with the given records and the given
other objects. -/
def exFile (name : String) (entries : List Nat) (objects : List (String × TObject Nat)) :
    TFile Nat :=
  { fName := name, zombie := false, recovered := false, isOpen := true, writable := false,
    keys := ("EventTree", .tree { fName := "EventTree", fBranch := some "Event",
                                  fEntries := entries }) :: objects }

/-- Three readable files of three, three and one records, the second of which also holds a
`Summary` called `run-summary`, and one corrupt file; no file can be created at
`/ro/out.root`. -/
def exWorld : World Nat :=
  { disk := [("a.root", exFile "a.root" [10, 20, 30] []),
             ("b.root", exFile "b.root" [40, 50, 60] [("run-summary", .object "Summary" 7)]),
             ("c.root", exFile "c.root" [70] []),
             ("bad.root", { fName := "bad.root", zombie := true, recovered := false,
                            isOpen := false, writable := false, keys := [] })],
    locked := ["/ro/out.root"],
    dictionary := true,
    trace := [] }

/-- The state `s` a member function that returned normally left behind (the given default
otherwise). -/
def Result.stateD {σ α : Type} (d : σ) : Result σ α → σ
  | .ok _ s => s
  | .thrown _ s => s
  | .undefined => d
  | .unfinished => d

/-- A reader opened on `a.root` alone, with all defaults. -/
def exReaderA : RootInFile.St Nat :=
  (RootInFile.new 1 exWorld ["a.root"] "" "" false false false).stateD (exWorld, RootInFile.init 1)

/-- A reader opened on `a.root` alone, then asked for entry `1`. -/
def exReaderA1 : RootInFile.St Nat :=
  (RootInFile.index false exReaderA.1 exReaderA.2 1).stateD exReaderA

/-- A reader opened with validity checking on the corrupt file alone: no file is admitted. -/
def exReaderNone : RootInFile.St Nat :=
  (RootInFile.new 1 exWorld ["bad.root"] "" "" true false false).stateD
    (exWorld, RootInFile.init 1)

/-- The chain of a reader opened on `a.root`, `b.root` and `c.root`, in this order. -/
def exChainABC : TChain :=
  { fName := "EventTree", fFiles := ["a.root", "b.root", "c.root"],
    fBranchAddress := some "Event", fBranchStatus := [] }

/-- A reader opened on `a.root`, `b.root` and `c.root`, with all defaults. -/
def exReaderABC : RootInFile.St Nat :=
  (RootInFile.new 1 exWorld ["a.root", "b.root", "c.root"] "" "" false false false).stateD
    (exWorld, RootInFile.init 1)

section Theorems
variable {Entry : Type}

/-! ### The store: what an operation leaves untouched -/

/-- Recording a call leaves the disk alone. -/
theorem log_disk (w : World Entry) (c : Call) : (w.log c).disk = w.disk := rfl

/-- Writing to `std::cerr` leaves the disk alone. -/
theorem cerrIf_disk (w : World Entry) (v : Bool) (m : String) : (w.cerrIf v m).disk = w.disk := by
  unfold World.cerrIf; split <;> rfl

/-- Deleting a file object opened for reading leaves the disk alone. -/
theorem delete_disk (w : World Entry) (f : Option (TFile Entry)) :
    (TFile.delete w f).disk = w.disk := by
  cases f <;> rfl

/-- Which file a name opens depends on the disk only. -/
theorem file_congr (w w2 : World Entry) (h : w2.disk = w.disk) (name : String) :
    w2.file name = w.file name := by
  simp [World.file, h]

/-- The records a file contributes depend on the disk only. -/
theorem records_congr (w w2 : World Entry) (h : w2.disk = w.disk) (tn name : String) :
    w2.records tn name = w.records tn name := by
  simp [World.records, file_congr w w2 h]

/-- Which object a file holds depends on the disk only. -/
theorem holds_congr (w w2 : World Entry) (h : w2.disk = w.disk) (T name : String) :
    w2.holds T name = w.holds T name := by
  funext title
  simp [World.holds, file_congr w w2 h]

/-- A file just stored under a non-empty name is the one found there. -/
theorem file_store (w : World Entry) (name : String) (f : TFile Entry) (hn : name ≠ "") :
    (w.store name f).file name = some f := by
  simp [World.file, World.store, hn, List.lookup]

/-- Below `2 ^ 63` the conversion to `Long64_t` keeps the value. -/
theorem toLong64_small (i : Nat) (h : i < 2 ^ 63) : toLong64 i = (i : Int) := by
  have h2 : i % 2 ^ 64 = i := Nat.mod_eq_of_lt (by omega)
  unfold toLong64
  rw [h2, if_pos h]

/-! ### C5: `IsValid` -/

/-- The boolean `IsValid` returns is `validFile` of the file found, whatever `verbose` is. -/
theorem IsValid_fst (w : World Entry) (name treeName : String) (rejectRecovered verbose : Bool) :
    (RootInFile.IsValid w name treeName rejectRecovered verbose).1 =
      validFile treeName rejectRecovered (w.file name) := by
  unfold RootInFile.IsValid TFile.Open validFile
  cases hf : w.file name with
  | none => simp
  | some file =>
    simp only []
    cases hz : file.IsZombie <;> cases hr : (rejectRecovered && file.TestBit_kRecovered) <;>
      cases hc : file.Contains treeName <;> cases ht : file.GetTree treeName <;> simp
    split <;> simp_all

/-- `IsValid` leaves the disk alone. -/
theorem IsValid_disk (w : World Entry) (name treeName : String) (rr vb : Bool) :
    (RootInFile.IsValid w name treeName rr vb).2.disk = w.disk := by
  unfold RootInFile.IsValid
  simp only [delete_disk]
  repeat' split
  all_goals simp [cerrIf_disk, TFile.Open, log_disk]

/-- `GetTree` finds a tree exactly when `GetObjectChecked` for class `TTree` finds it. -/
theorem GetTree_eq_some (file : TFile Entry) (treeName : String) (t : TTree Entry) :
    file.GetTree treeName = some t ↔ file.GetObjectChecked treeName "TTree" = some (.tree t) := by
  unfold TFile.GetTree
  split
  · next h => simp [h]
  · next h => 
    simp
    intro h2
    exact h t h2

/-- Claim C5.  `IsValid(name, treeName, rejectRecovered, verbose)` returns `true` if and only if
the file opens, is not a zombie, is not flagged as recovered when `rejectRecovered` is set, has
`treeName` among its keys, the object under `treeName` is retrievable as a `TTree`, and that tree
has a non-zero number of entries; the result is the same for every value of `verbose`. -/
theorem C5_IsValid_iff (w : World Entry) (name treeName : String)
    (rejectRecovered verbose : Bool) :
    ((RootInFile.IsValid w name treeName rejectRecovered verbose).1 = true ↔
      ∃ file tree, (TFile.Open w name).1 = some file ∧ file.IsZombie = false ∧
        ¬ (rejectRecovered = true ∧ file.TestBit_kRecovered = true) ∧
        file.Contains treeName = true ∧
        file.GetObjectChecked treeName "TTree" = some (.tree tree) ∧
        tree.GetEntries ≠ 0) ∧
    (∀ verbose2, (RootInFile.IsValid w name treeName rejectRecovered verbose2).1 =
      (RootInFile.IsValid w name treeName rejectRecovered verbose).1) := by
  refine ⟨?_, fun v2 => by rw [IsValid_fst, IsValid_fst]⟩
  rw [IsValid_fst]
  simp only [TFile.Open]
  cases hf : w.file name with
  | none => simp [validFile]
  | some file =>
    constructor
    · intro h
      simp only [validFile, Bool.and_eq_true, Bool.not_eq_true', Bool.and_eq_false_iff] at h
      obtain ⟨⟨⟨hz, hr⟩, hc⟩, ht⟩ := h
      cases hg : file.GetTree treeName with
      | none => simp [hg] at ht
      | some t =>
        simp [hg] at ht
        refine ⟨file, t, rfl, hz, ?_, hc, (GetTree_eq_some _ _ _).1 hg, ht⟩
        rintro ⟨h1, h2⟩
        rcases hr with hr | hr <;> simp_all
    · rintro ⟨f, t, h1, hz, hr, hc, ht, he⟩
      simp only [Option.some.injEq] at h1
      subst h1
      have hg := (GetTree_eq_some _ _ _).2 ht
      simp only [validFile, hz, hc, hg]
      simp [he]
      cases rejectRecovered <;> cases hh : file.TestBit_kRecovered <;> simp_all

/-! ### C4: iterator comparison -/

/-- Claim C4.  `operator==` and `operator!=` of two iterators fail if and only if the iterators
refer to different readers, whatever their indices, and then with `std::logic_error`; on the
same reader `==` is equality of the indices and `!=` its negation. -/
theorem C4_iterator_comparison (it1 it2 : Iterator) :
    ((∃ e, it1.eq it2 = .error e) ↔ it1.fFile ≠ it2.fFile) ∧
    ((∃ e, it1.ne it2 = .error e) ↔ it1.fFile ≠ it2.fFile) ∧
    (it1.fFile ≠ it2.fFile →
      (∃ m, it1.eq it2 = .error (.logic_error m)) ∧
      (∃ m, it1.ne it2 = .error (.logic_error m))) ∧
    (it1.fFile = it2.fFile →
      it1.eq it2 = .ok (decide (it1.fIndex = it2.fIndex)) ∧
      it1.ne it2 = .ok (!decide (it1.fIndex = it2.fIndex))) := by
  have hb : (it1.fIndex == it2.fIndex) = decide (it1.fIndex = it2.fIndex) := by
    by_cases hi : it1.fIndex = it2.fIndex <;> simp [hi]
  by_cases h : it1.fFile = it2.fFile
  · simp [Iterator.eq, Iterator.ne, Iterator.IsSameFile, h, hb]
  · simp [Iterator.eq, Iterator.ne, Iterator.IsSameFile, h]

/-- Witness for C4: iterators of the readers at addresses `1` and `2` do not compare; two
iterators of the reader at address `1` with indices `0` and `3` are different. -/
theorem C4_iterator_comparison_witness :
    (∃ m, Iterator.ne { fFile := 1, fIndex := 0 } { fFile := 2, fIndex := 0 }
      = .error (.logic_error m)) ∧
    Iterator.eq { fFile := 1, fIndex := 0 } { fFile := 1, fIndex := 3 } = .ok false ∧
    Iterator.ne { fFile := 1, fIndex := 0 } { fFile := 1, fIndex := 3 } = .ok true :=
  ⟨((C4_iterator_comparison { fFile := 1, fIndex := 0 } { fFile := 2, fIndex := 0 }).2.2.1
      (by decide)).2,
    (C4_iterator_comparison { fFile := 1, fIndex := 0 } { fFile := 1, fIndex := 3 }).2.2.2 rfl⟩

/-! ### C10: `Close` twice -/

/-- Claim C10.  `Close()` of a reader and of a writer returns normally in every state, and a
second `Close()` leaves the object and the store, trace of engine calls included, exactly as
the first one left them: nothing more is flushed or released. -/
theorem C10_Close_idempotent (w : World Entry) (r : RootInFile Entry) (w2 : World Entry)
    (o : RootOutFile Entry) :
    RootInFile.Close (RootInFile.Close w r).1 (RootInFile.Close w r).2 = RootInFile.Close w r ∧
    (RootInFile.Close (RootInFile.Close w r).1 (RootInFile.Close w r).2).1.trace
      = (RootInFile.Close w r).1.trace ∧
    (RootInFile.Close w r).2.IsClosed ∧
    RootOutFile.Close (RootOutFile.Close w2 o).1 (RootOutFile.Close w2 o).2
      = RootOutFile.Close w2 o ∧
    (RootOutFile.Close (RootOutFile.Close w2 o).1 (RootOutFile.Close w2 o).2).1.trace
      = (RootOutFile.Close w2 o).1.trace := by
  have hr : RootInFile.Close (RootInFile.Close w r).1 (RootInFile.Close w r).2
      = RootInFile.Close w r := by
    simp [RootInFile.Close]
  have ho : RootOutFile.Close (RootOutFile.Close w2 o).1 (RootOutFile.Close w2 o).2
      = RootOutFile.Close w2 o := by
    unfold RootOutFile.Close
    rcases o with ⟨_ | f, _ | t, p⟩ <;> simp
    by_cases hw : f.IsWritable = true <;> simp [hw]
  refine ⟨hr, by rw [hr], ?_, ho, by rw [ho]⟩
  simp [RootInFile.Close, RootInFile.IsClosed]

/-! ### C3: the one-entry cache -/

/-- A request for the cached index returns the buffer and changes nothing. -/
theorem index_cached (debug : Bool) (w : World Entry) (r : RootInFile Entry) (v : Entry)
    (hb : r.fEntryBuffer = some v) (hc : debug = true → r.fChain.isSome = true) :
    RootInFile.index debug w r r.fCurrentEntryIndex = .ok v (w, r) := by
  rcases r with ⟨a, c, t, b⟩
  simp only at hb hc
  subst hb
  cases debug
  · simp [RootInFile.index, RootInFile.IO_ROOTFILE_CHECK]
  · cases c
    · simp at hc
    · simp [RootInFile.index, RootInFile.IO_ROOTFILE_CHECK, RootInFile.Check]

/-- After `operator[](i)` returned, the tag is `i` and the buffer holds the value returned. -/
theorem index_ok_inv (debug : Bool) (w w1 : World Entry) (r r1 : RootInFile Entry) (i : Nat)
    (v : Entry) (h : RootInFile.index debug w r i = .ok v (w1, r1)) :
    r1.fCurrentEntryIndex = i ∧ r1.fEntryBuffer = some v ∧
      (debug = true → r1.fChain.isSome = true) := by
  rcases r with ⟨a, c, t, b⟩
  by_cases hi : i = t
  · subst hi
    cases debug <;> cases c <;> cases b <;>
      simp [RootInFile.index, RootInFile.IO_ROOTFILE_CHECK, RootInFile.Check, RootInFile.Error] at h ⊢
    all_goals (obtain ⟨h1, h2, h3⟩ := h; subst h1 h2 h3; simp)
  · cases debug <;> cases c <;> cases b <;>
      simp only [RootInFile.index, RootInFile.IO_ROOTFILE_CHECK, RootInFile.Check, RootInFile.Error] at h <;>
      simp [hi] at h
    all_goals
      revert h
      generalize TChain.GetEntry w _ (toLong64 i) = got
      rcases got with ⟨n, _ | e⟩ <;> by_cases hn : n = 0 <;> simp [hn]
    all_goals (rintro rfl rfl rfl; simp)

/-- Claim C3 (cache hit).  If `operator[](i)` returns normally, then afterwards the cache tag
`fCurrentEntryIndex` is `i` and the buffer holds the value returned; an immediately following
`operator[](i)` returns the same value and leaves the reader and the store, trace of engine
calls included, exactly as they were: no `GetEntry` call is made. -/
theorem C3_cache_hit (debug : Bool) (w w1 : World Entry) (r r1 : RootInFile Entry) (i : Nat)
    (v : Entry) (h : RootInFile.index debug w r i = .ok v (w1, r1)) :
    r1.fCurrentEntryIndex = i ∧ r1.fEntryBuffer = some v ∧
    RootInFile.index debug w1 r1 i = .ok v (w1, r1) := by
  obtain ⟨h1, h2, h3⟩ := index_ok_inv debug w w1 r r1 i v h
  refine ⟨h1, h2, ?_⟩
  have := index_cached debug w1 r1 v h2 h3
  rwa [h1] at this

/-- Witness for C3: entry `1` of `a.root` is `20`, and asking again changes nothing. -/
theorem C3_cache_hit_witness :
    RootInFile.index false exReaderA.1 exReaderA.2 1 = .ok 20 exReaderA1 ∧
    exReaderA1.2.fCurrentEntryIndex = 1 ∧ exReaderA1.2.fEntryBuffer = some 20 ∧
    RootInFile.index false exReaderA1.1 exReaderA1.2 1 = .ok 20 (exReaderA1.1, exReaderA1.2) :=
  ⟨by decide, C3_cache_hit false exReaderA.1 exReaderA1.1 exReaderA.2 exReaderA1.2 1 20
    (by decide)⟩

/-! ### C2: indices past the end -/

/-- On an open reader every index past the end, other than the cached one, throws
`std::out_of_range` and leaves the reader as it was. -/
theorem index_out_of_range (debug : Bool) (w : World Entry) (r : RootInFile Entry) (c : TChain)
    (i : Nat) (hc : r.fChain = some c) (hb : r.fEntryBuffer.isSome = true)
    (hi : c.GetEntries w ≤ i) (h64 : i < 2 ^ 64) (htag : i ≠ r.fCurrentEntryIndex) :
    ∃ m, RootInFile.index debug w r i =
      .thrown (.out_of_range m) (w.log (.TChain_GetEntry (toLong64 i)), r) := by
  have hget : c.GetEntry w (toLong64 i) = (0, none) := by
    unfold TChain.GetEntry
    split
    · rfl
    · next hneg =>
      have h63 : i % 2 ^ 64 < 2 ^ 63 := by
        by_contra hge
        apply hneg
        unfold toLong64
        rw [if_neg hge]
        omega
      have hmod : i % 2 ^ 64 = i := Nat.mod_eq_of_lt h64
      have hnone : (TChain.records w c).get? (toLong64 i).toNat = none := by
        rw [List.get?_eq_none]
        unfold toLong64
        rw [if_pos h63]
        simp only [Int.toNat_ofNat]
        unfold TChain.GetEntries at hi
        omega
      rw [hnone]
  rcases r with ⟨a, c0, t, buf⟩
  simp only at hc hb htag
  subst hc
  cases buf with
  | none => simp at hb
  | some v =>
    cases debug <;>
      simp [RootInFile.index, RootInFile.IO_ROOTFILE_CHECK, RootInFile.Check, htag, hget]

/-- Claim C2, evaluated where the code departs from it.  A reader freshly opened on `a.root`
has `GetSize() == 3`, yet `operator[](2 ^ 64 - 1)` does not throw: the index equals the initial
value of `fCurrentEntryIndex`, `GetEntry` is skipped and the default constructed buffer (`0`) is
returned, with and without `IO_ROOTFILE_DEBUG`.  The index `3` on the same reader does throw
`std::out_of_range`, and so does `2 ^ 64 - 1` once an entry has been loaded. -/
theorem C2_sentinel_index_returns_the_empty_buffer :
    RootInFile.new 1 exWorld ["a.root"] "" "" false false false = .ok () exReaderA ∧
    RootInFile.GetSize false exReaderA.1 exReaderA.2 = .ok 3 exReaderA ∧
    3 ≤ 2 ^ 64 - 1 ∧
    RootInFile.index false exReaderA.1 exReaderA.2 (2 ^ 64 - 1) = .ok 0 exReaderA ∧
    RootInFile.index true exReaderA.1 exReaderA.2 (2 ^ 64 - 1) = .ok 0 exReaderA ∧
    (∃ m s, RootInFile.index false exReaderA.1 exReaderA.2 3 = .thrown (.out_of_range m) s) ∧
    (∃ m s, RootInFile.index false exReaderA1.1 exReaderA1.2 (2 ^ 64 - 1)
      = .thrown (.out_of_range m) s) := by
  refine ⟨by decide, by decide, by decide, by decide, by decide, ⟨_, _, rfl⟩, ⟨_, _, rfl⟩⟩

/-! ### The loop of `Open` -/

/-- Which names the loop of `Open` admits depends on the disk only. -/
theorem admits_congr (tn : String) (cv sr : Bool) (w w2 : World Entry) (h : w2.disk = w.disk) :
    admits tn cv sr w2 = admits tn cv sr w := by
  funext name
  simp [admits, file_congr w w2 h]

/-- The loop of `Open` leaves the disk alone, appends the admitted names to the chain in
order, and counts them. -/
theorem openLoop_spec (tn : String) (cv sr vb : Bool) (names : List String) :
    ∀ (w : World Entry) (c : TChain) (n : Nat),
      (RootInFile.openLoop tn cv sr vb w c n names).1.disk = w.disk ∧
      (RootInFile.openLoop tn cv sr vb w c n names).2.1 =
        { c with fFiles := c.fFiles ++ names.filter (admits tn cv sr w) } ∧
      (RootInFile.openLoop tn cv sr vb w c n names).2.2 =
        n + (names.filter (admits tn cv sr w)).length := by
  induction names with
  | nil => intro w c n; simp [RootInFile.openLoop]
  | cons name rest ih =>
    intro w c n
    have hempty : validFile tn sr (w.file "") = false := by simp [World.file, validFile]
    cases cv with
    | false =>
      by_cases hn : name = ""
      · subst hn
        obtain ⟨h1, h2, h3⟩ := ih w c n
        simp [RootInFile.openLoop, TChain.Add, h1, h2, h3, admits]
      · obtain ⟨h1, h2, h3⟩ := ih w { c with fFiles := c.fFiles ++ [name] } (n + 1)
        simp [RootInFile.openLoop, TChain.Add, h1, h2, h3, admits, hn, List.filter_cons]
        omega
    | true =>
      by_cases hv : validFile tn sr (w.file name) = true
      · have hn : name ≠ "" := by
          rintro rfl
          rw [hempty] at hv
          exact Bool.false_ne_true hv
        have hd := IsValid_disk w name tn sr vb
        obtain ⟨h1, h2, h3⟩ := ih (RootInFile.IsValid w name tn sr vb).2
          { c with fFiles := c.fFiles ++ [name] } (n + 1)
        rw [admits_congr tn true sr w _ hd] at h2 h3
        have ha : admits tn true sr w name = true := by simp [admits, hv, hn]
        simp [RootInFile.openLoop, TChain.Add, IsValid_fst, hv, hn, h1, h2, h3, hd,
          List.filter_cons, ha]
        omega
      · have hv2 : validFile tn sr (w.file name) = false := by simpa using hv
        have hd : ((RootInFile.IsValid w name tn sr vb).2.cerrIf vb
            ("RooInFile::Open: File '" ++ name ++ "' not valid!\n")).disk = w.disk := by
          rw [cerrIf_disk, IsValid_disk]
        obtain ⟨h1, h2, h3⟩ := ih ((RootInFile.IsValid w name tn sr vb).2.cerrIf vb
            ("RooInFile::Open: File '" ++ name ++ "' not valid!\n")) c n
        rw [admits_congr tn true sr w _ hd] at h2 h3
        have ha : admits tn true sr w name = false := by simp [admits, hv2]
        simp [RootInFile.openLoop, IsValid_fst, hv2, h1, h2, h3, hd, List.filter_cons, ha]

/-- `GetEntries` of a chain is the sum of the record counts of its files. -/
theorem GetEntries_eq_sum (w : World Entry) (c : TChain) :
    c.GetEntries w = (c.fFiles.map (w.count c.fName)).sum := by
  simp only [TChain.GetEntries, TChain.records, List.length_flatten, List.map_map]
  rfl

/-- What the constructor of `RootInFile` returns, in terms of the loop of `Open`. -/
theorem new_eq [EntryClass Entry] (addr : Nat) (w : World Entry) (names : List String)
    (treeName branchName : String) (cv sr vb : Bool) :
    RootInFile.new addr w names treeName branchName cv sr vb =
      (if (RootInFile.openLoop (treeNameOf Entry treeName) cv sr vb w
            (TChain.new (treeNameOf Entry treeName)) 0 names).2.2 = 0 then
        .ok () (((RootInFile.openLoop (treeNameOf Entry treeName) cv sr vb w
            (TChain.new (treeNameOf Entry treeName)) 0 names).1.cerrIf vb
              "RootInFile::Open: no valid files!\n").log .TChain_delete, RootInFile.init addr)
      else
        .ok () ((RootInFile.openLoop (treeNameOf Entry treeName) cv sr vb w
            (TChain.new (treeNameOf Entry treeName)) 0 names).1,
          { addr := addr,
            fChain := some ((RootInFile.openLoop (treeNameOf Entry treeName) cv sr vb w
              (TChain.new (treeNameOf Entry treeName)) 0 names).2.1.SetBranchAddress
                (if branchName = "" then EntryClass.Class_Name Entry else branchName)),
            fCurrentEntryIndex := ULong64_max,
            fEntryBuffer := some EntryClass.construct })) := by
  unfold RootInFile.new RootInFile.Open treeNameOf
  simp only [RootInFile.init]
  split <;> simp [RootInFile.Check]

/-! ### C6: opening with validity checking -/

/-- Claim C6.  When `checkValidity` is set and at least one candidate passes `IsValid`, the
constructor returns normally, the chain holds exactly the candidates that pass `IsValid`, in
argument order, and `GetSize()` is the sum of the record counts of these files (a sum that fits
a `ULong64_t`). -/
theorem C6_Open_checkValidity [EntryClass Entry] (debug : Bool) (addr : Nat) (w : World Entry)
    (filenames : List String) (treeName branchName : String) (skipRecovered verbose : Bool)
    (hvalid : ∃ name ∈ filenames,
      (RootInFile.IsValid w name (treeNameOf Entry treeName) skipRecovered verbose).1 = true)
    (hfit : ((filenames.filter (fun name =>
      (RootInFile.IsValid w name (treeNameOf Entry treeName) skipRecovered verbose).1)).map
        (w.count (treeNameOf Entry treeName))).sum < 2 ^ 64) :
    ∃ w1 r c,
      RootInFile.new addr w filenames treeName branchName true skipRecovered verbose
        = .ok () (w1, r) ∧
      r.fChain = some c ∧
      c.fFiles = filenames.filter (fun name =>
        (RootInFile.IsValid w name (treeNameOf Entry treeName) skipRecovered verbose).1) ∧
      RootInFile.GetSize debug w1 r = .ok ((c.fFiles.map (w.count (treeNameOf Entry treeName))).sum)
        (w1, r) := by
  have hadm : admits (treeNameOf Entry treeName) true skipRecovered w = (fun name =>
      (RootInFile.IsValid w name (treeNameOf Entry treeName) skipRecovered verbose).1) := by
    funext name
    simp only [IsValid_fst, admits]
    by_cases hn : name = ""
    · subst hn; simp [World.file, validFile]
    · simp [hn]
  have hpos : (filenames.filter (fun name =>
      (RootInFile.IsValid w name (treeNameOf Entry treeName) skipRecovered verbose).1)).length
        ≠ 0 := by
    obtain ⟨name, hmem, hv⟩ := hvalid
    have : name ∈ filenames.filter (fun name =>
      (RootInFile.IsValid w name (treeNameOf Entry treeName) skipRecovered verbose).1) :=
      List.mem_filter.2 ⟨hmem, hv⟩
    intro h0
    rw [List.length_eq_zero] at h0
    rw [h0] at this
    exact List.not_mem_nil _ this
  obtain ⟨h1, h2, h3⟩ := openLoop_spec (treeNameOf Entry treeName) true skipRecovered verbose
    filenames w (TChain.new (treeNameOf Entry treeName)) 0
  rw [hadm] at h2 h3
  rw [new_eq]
  generalize RootInFile.openLoop (treeNameOf Entry treeName) true skipRecovered verbose w
    (TChain.new (treeNameOf Entry treeName)) 0 filenames = L at h1 h2 h3 ⊢
  rcases L with ⟨w1, c1, n1⟩
  simp only at h1 h2 h3
  subst h2 h3
  simp only [Nat.zero_add, if_neg hpos]
  refine ⟨_, _, _, rfl, rfl, ?_, ?_⟩
  · simp [TChain.SetBranchAddress, TChain.new]
  · have hcount : w1.count (treeNameOf Entry treeName) = w.count (treeNameOf Entry treeName) := by
      funext a
      simp [World.count, records_congr w w1 h1]
    cases debug <;>
      simp [RootInFile.GetSize, RootInFile.IO_ROOTFILE_CHECK, RootInFile.Check,
        GetEntries_eq_sum, TChain.SetBranchAddress, TChain.new, hcount] <;>
      exact hfit

/-- Witness for C6: two valid files of three records each and one corrupt file give a chain of
the two valid files and `GetSize() == 2 * 3`. -/
theorem C6_Open_checkValidity_witness :
    ∃ w1 r c,
      RootInFile.new 1 exWorld ["a.root", "bad.root", "b.root"] "" "" true false false
        = .ok () (w1, r) ∧
      r.fChain = some c ∧ c.fFiles = ["a.root", "b.root"] ∧
      RootInFile.GetSize false w1 r = .ok (2 * 3) (w1, r) := by
  obtain ⟨w1, r, c, h1, h2, h3, h4⟩ := C6_Open_checkValidity false 1 exWorld
    ["a.root", "bad.root", "b.root"] "" "" false false ⟨"a.root", by decide, by decide⟩
    (by decide)
  have hf : List.filter (fun name =>
      (RootInFile.IsValid exWorld name (treeNameOf Nat "") false false).1)
      ["a.root", "bad.root", "b.root"] = ["a.root", "b.root"] := by decide
  rw [hf] at h3
  rw [h3] at h4
  have hs : (List.map (exWorld.count (treeNameOf Nat "")) ["a.root", "b.root"]).sum = 2 * 3 := by
    decide
  rw [hs] at h4
  exact ⟨w1, r, c, h1, h2, h3, h4⟩

/-! ### C7: no file admitted -/

/-- Claim C7, amended.  When every candidate fails the validity check or is not connected by the
chain, the constructor returns normally and leaves the reader closed (no chain, no buffer, cache
tag at the sentinel).  `SetBranchStatus`, `GetChain`, `Get` and `Has` then throw
`std::runtime_error` in every build; `GetSize`, `operator[]`, `Begin` and `End` throw it when
`IO_ROOTFILE_DEBUG` is defined; when it is not, `Begin` returns an iterator at index `0` and
`GetSize`, `operator[]` and `End` dereference the null chain or buffer pointer. -/
theorem C7_no_file_admitted [EntryClass Entry] (addr : Nat) (w : World Entry)
    (filenames : List String) (treeName branchName : String)
    (checkValidity skipRecovered verbose : Bool)
    (hnone : ∀ name ∈ filenames,
      (checkValidity = true ∧
        (RootInFile.IsValid w name (treeNameOf Entry treeName) skipRecovered verbose).1 = false) ∨
      ((TChain.new (treeNameOf Entry treeName)).Add name).1 = 0) :
    ∃ w1,
      RootInFile.new addr w filenames treeName branchName checkValidity skipRecovered verbose
        = .ok () (w1, RootInFile.init addr) ∧
      (RootInFile.init addr : RootInFile Entry).IsClosed ∧
      (∀ branch status, ∃ m, RootInFile.SetBranchStatus w1 (RootInFile.init addr) branch status
        = .thrown (.runtime_error m) (w1, RootInFile.init addr)) ∧
      (∃ m, RootInFile.GetChain w1 (RootInFile.init addr)
        = .thrown (.runtime_error m) (w1, RootInFile.init addr)) ∧
      (∀ T name, ∃ m, RootInFile.Get w1 (RootInFile.init addr) T name
        = .thrown (.runtime_error m) (w1, RootInFile.init addr)) ∧
      (∀ T name, ∃ m, RootInFile.Has w1 (RootInFile.init addr) T name
        = .thrown (.runtime_error m) (w1, RootInFile.init addr)) ∧
      (∃ m, RootInFile.GetSize true w1 (RootInFile.init addr)
        = .thrown (.runtime_error m) (w1, RootInFile.init addr)) ∧
      (∀ i, ∃ m, RootInFile.index true w1 (RootInFile.init addr) i
        = .thrown (.runtime_error m) (w1, RootInFile.init addr)) ∧
      (∃ m, RootInFile.Begin true w1 (RootInFile.init addr)
        = .thrown (.runtime_error m) (w1, RootInFile.init addr)) ∧
      (∃ m, RootInFile.End true w1 (RootInFile.init addr)
        = .thrown (.runtime_error m) (w1, RootInFile.init addr)) ∧
      RootInFile.GetSize false w1 (RootInFile.init addr) = .undefined ∧
      (∀ i, RootInFile.index false w1 (RootInFile.init addr) i = .undefined) ∧
      RootInFile.Begin false w1 (RootInFile.init addr)
        = .ok { fFile := addr, fIndex := 0 } (w1, RootInFile.init addr) ∧
      RootInFile.End false w1 (RootInFile.init addr) = .undefined := by
  have hfil : filenames.filter (admits (treeNameOf Entry treeName) checkValidity skipRecovered w)
      = [] := by
    rw [List.filter_eq_nil_iff]
    intro name hmem
    rcases hnone name hmem with ⟨hcv, hv⟩ | hadd
    · rw [IsValid_fst] at hv
      simp [admits, hcv, hv]
    · have : name = "" := by
        by_contra hne
        simp [TChain.Add, hne] at hadd
      simp [admits, this]
  obtain ⟨-, -, h3⟩ := openLoop_spec (treeNameOf Entry treeName) checkValidity skipRecovered
    verbose filenames w (TChain.new (treeNameOf Entry treeName)) 0
  rw [hfil] at h3
  rw [new_eq, h3]
  refine ⟨_, rfl, ?_, ?_, ?_, ?_, ?_, ?_, ?_, ?_, ?_, ?_, ?_, ?_, ?_⟩
  all_goals
    simp [RootInFile.IsClosed, RootInFile.SetBranchStatus, RootInFile.GetChain, RootInFile.Get,
      RootInFile.Has, RootInFile.Find, RootInFile.GetSize, RootInFile.index, RootInFile.Begin,
      RootInFile.End, RootInFile.IO_ROOTFILE_CHECK, RootInFile.Check, RootInFile.Error,
      RootInFile.Close, RootInFile.init]
  intro i
  split_ifs <;> rfl

/-- Witness for C7 amended: a corrupt file and an empty name, opened with validity checking. -/
theorem C7_no_file_admitted_witness :
    ∃ w1, RootInFile.new 1 exWorld ["bad.root", ""] "" "" true false false
        = .ok () (w1, RootInFile.init 1) ∧
      (∃ m, RootInFile.GetChain w1 (RootInFile.init 1)
        = .thrown (.runtime_error m) (w1, RootInFile.init 1)) ∧
      (∃ m, RootInFile.GetSize true w1 (RootInFile.init 1)
        = .thrown (.runtime_error m) (w1, RootInFile.init 1)) ∧
      RootInFile.GetSize false w1 (RootInFile.init 1) = .undefined := by
  obtain ⟨w1, h1, -, -, h2, -, -, h3, -, -, -, h4, -⟩ :=
    C7_no_file_admitted 1 exWorld ["bad.root", ""] "" "" true false false (by decide)
  exact ⟨w1, h1, h2, h3, h4⟩

/-- Counterexample to C7 as stated: without `IO_ROOTFILE_DEBUG`, on a reader that admitted no
file, `Begin()` returns an iterator instead of failing, and `GetSize()` dereferences the null
chain pointer instead of throwing. -/
theorem C7_counterexample_Begin_on_closed_reader :
    RootInFile.new 1 exWorld ["bad.root"] "" "" true false false = .ok () exReaderNone ∧
    exReaderNone.2.fChain = none ∧
    RootInFile.Begin false exReaderNone.1 exReaderNone.2
      = .ok { fFile := 1, fIndex := 0 } exReaderNone ∧
    RootInFile.GetSize false exReaderNone.1 exReaderNone.2 = .undefined := by
  decide

/-! ### C8: the state an exception leaves behind -/

/-- Once an object is found the loop of `Find` opens no further file. -/
theorem findLoop_some (T name : String) (w : World Entry) (o : TObject Entry)
    (files : List String) : RootInFile.findLoop T name w (some o) files = (some o, w) := by
  cases files <;> rfl

/-- One iteration of the loop of `Find`. -/
theorem findLoop_cons (T name : String) (w : World Entry) (title : String)
    (rest : List String) :
    RootInFile.findLoop T name w none (title :: rest) =
      RootInFile.findLoop T name (TFile.delete (TFile.construct w title).2 (some (TFile.construct w title).1))
        (w.holds T name title) rest := by
  have hobj : (TFile.construct w title).1.GetObjectChecked name T = w.holds T name title := by
    unfold TFile.construct World.holds
    cases w.file title <;> simp [TFile.GetObjectChecked]
  simp only [RootInFile.findLoop, hobj]

/-- Constructing and destroying the temporary file object leaves the disk alone. -/
theorem step_disk (w : World Entry) (title : String) :
    (TFile.delete (TFile.construct w title).2 (some (TFile.construct w title).1)).disk = w.disk := by
  rw [delete_disk]
  rfl

/-- Constructing and destroying the temporary for `title` records the opening of `title` only. -/
theorem step_trace (w : World Entry) (title g : String)
    (h : Call.TFile_Open g ∈ (TFile.delete (TFile.construct w title).2 (some (TFile.construct w title).1)).trace) :
    Call.TFile_Open g ∈ w.trace ∨ g = title := by
  simp [TFile.delete, TFile.construct, World.log] at h
  exact h

/-- The loop of `Find` returns the first object found in chain order, and leaves the disk
alone. -/
theorem findLoop_fst (T name : String) (files : List String) :
    ∀ w : World Entry,
      (RootInFile.findLoop T name w none files).1 = files.findSome? (w.holds T name) ∧
      (RootInFile.findLoop T name w none files).2.disk = w.disk := by
  induction files with
  | nil => intro w; simp [RootInFile.findLoop]
  | cons title rest ih =>
    intro w
    rw [findLoop_cons]
    cases ho : w.holds T name title with
    | some o => simp [findLoop_some, List.findSome?, ho, step_disk]
    | none =>
      obtain ⟨h1, h2⟩ := ih (TFile.delete (TFile.construct w title).2 (some (TFile.construct w title).1))
      rw [holds_congr w _ (step_disk w title)] at h1
      simp [h1, h2, List.findSome?, ho, step_disk]

/-- When `f` is the first file holding the object, the loop of `Find` returns it and has
opened only the files before `f` and `f` itself. -/
theorem findLoop_consulted (T name : String) (f : String) (o : TObject Entry)
    (post pre : List String) :
    ∀ w : World Entry, (∀ g ∈ pre, w.holds T name g = none) → w.holds T name f = some o →
      (RootInFile.findLoop T name w none (pre ++ f :: post)).1 = some o ∧
      ∀ g, Call.TFile_Open g ∈ (RootInFile.findLoop T name w none (pre ++ f :: post)).2.trace →
        Call.TFile_Open g ∈ w.trace ∨ g ∈ pre ∨ g = f := by
  induction pre with
  | nil =>
    intro w _ hf
    simp only [List.nil_append, findLoop_cons, hf, findLoop_some, List.not_mem_nil, false_or,
      true_and]
    intro g hg
    exact step_trace w f g hg
  | cons p pre ih =>
    intro w hpre hf
    have hp : w.holds T name p = none := hpre p (List.mem_cons_self _ _)
    have hcongr := holds_congr w _ (step_disk w p) T name
    obtain ⟨h1, h2⟩ := ih (TFile.delete (TFile.construct w p).2 (some (TFile.construct w p).1))
      (fun g hg => by rw [hcongr]; exact hpre g (List.mem_cons_of_mem _ hg))
      (by rw [hcongr]; exact hf)
    simp only [List.cons_append, findLoop_cons, hp]
    refine ⟨h1, fun g hg => ?_⟩
    rcases h2 g hg with h | h | h
    · rcases step_trace w p g h with h | h
      · exact Or.inl h
      · exact Or.inr (Or.inl (by simp [h]))
    · exact Or.inr (Or.inl (List.mem_cons_of_mem _ h))
    · exact Or.inr (Or.inr h)

/-- Nothing is found in a list exactly when nothing is found at any of its elements. -/
theorem findSome_none_iff {α β : Type} (p : α → Option β) (l : List α) :
    l.findSome? p = none ↔ ∀ a ∈ l, p a = none := by
  induction l with
  | nil => simp
  | cons a l ih => cases ha : p a <;> simp [List.findSome?, ha, ih]

/-- Claim C9.  On a reader with a chain, `Has<T>(name)` returns a boolean and never fails, and
the boolean says whether some file of the chain holds an object of class `T` under `name`;
`Get<T>(name)` returns the object of the first file, in chain order, that holds one, and opens
no file after that one; `Get<T>(name)` throws if and only if no file of the chain holds such an
object, and what it throws is the no-object `std::runtime_error`. -/
theorem C9_Has_Get (w : World Entry) (r : RootInFile Entry) (c : TChain) (T name : String)
    (hopen : r.fChain = some c) :
    (∃ w1, RootInFile.Has w r T name =
      .ok (c.fFiles.any (fun f => (w.holds T name f).isSome)) (w1, r)) ∧
    (∀ pre f post o, c.fFiles = pre ++ f :: post → (∀ g ∈ pre, w.holds T name g = none) →
      w.holds T name f = some o →
      ∃ w1, RootInFile.Get w r T name = .ok o (w1, r) ∧
        ∀ g, Call.TFile_Open g ∈ w1.trace → Call.TFile_Open g ∈ w.trace ∨ g ∈ pre ∨ g = f) ∧
    ((∃ e s, RootInFile.Get w r T name = .thrown e s) ↔
      ∀ f ∈ c.fFiles, w.holds T name f = none) ∧
    (∀ e s, RootInFile.Get w r T name = .thrown e s →
      e = .runtime_error ("RootInFile::Get: no object '" ++ name ++ "' found in file")) := by
  have hfind : RootInFile.Find w r T name =
      .ok (RootInFile.findLoop T name w none c.fFiles).1
        ((RootInFile.findLoop T name w none c.fFiles).2, r) := by
    simp [RootInFile.Find, hopen, TChain.GetListOfFiles]
  obtain ⟨hfst, -⟩ := findLoop_fst T name c.fFiles w
  have hget : RootInFile.Get w r T name =
      match c.fFiles.findSome? (w.holds T name) with
      | some o => .ok o ((RootInFile.findLoop T name w none c.fFiles).2, r)
      | none => RootInFile.Error (RootInFile.findLoop T name w none c.fFiles).2 r
          ("RootInFile::Get: no object '" ++ name ++ "' found in file") := by
    simp only [RootInFile.Get, hfind]
    rw [← hfst]
    cases (RootInFile.findLoop T name w none c.fFiles).1 <;> rfl
  refine ⟨?_, ?_, ?_, ?_⟩
  · refine ⟨(RootInFile.findLoop T name w none c.fFiles).2, ?_⟩
    simp only [RootInFile.Has, hfind, hfst]
    congr 1
    induction c.fFiles with
    | nil => rfl
    | cons a l ih =>
      cases ha : w.holds T name a <;> simp [List.findSome?, ha, ih]
  · intro pre f post o hdec hpre hf
    obtain ⟨h1, h2⟩ := findLoop_consulted T name f o post pre w hpre hf
    rw [← hdec] at h1 h2
    refine ⟨(RootInFile.findLoop T name w none c.fFiles).2, ?_, h2⟩
    simp only [RootInFile.Get, hfind, h1]
  · rw [← findSome_none_iff, hget]
    cases c.fFiles.findSome? (w.holds T name) <;> simp [RootInFile.Error]
  · intro e s h
    rw [hget] at h
    cases hh : c.fFiles.findSome? (w.holds T name) <;> rw [hh] at h
    · simp only [RootInFile.Error, Result.thrown.injEq] at h
      exact h.1.symm
    · simp at h

/-- Witness for C9: on the chain `a.root`, `b.root`, `c.root`, of which only `b.root` holds
`run-summary`, `Has` is `true`, `Get` returns the object without opening `c.root`, and `Get` of
`missing` throws. -/
theorem C9_Has_Get_witness :
    exReaderABC.2.fChain = some exChainABC ∧
    (∃ w1, RootInFile.Has exReaderABC.1 exReaderABC.2 "Summary" "run-summary"
      = .ok true (w1, exReaderABC.2)) ∧
    (∃ w1, RootInFile.Get exReaderABC.1 exReaderABC.2 "Summary" "run-summary"
        = .ok (.object "Summary" 7) (w1, exReaderABC.2) ∧
      Call.TFile_Open "c.root" ∉ w1.trace) ∧
    (∃ e s, RootInFile.Get exReaderABC.1 exReaderABC.2 "Summary" "missing" = .thrown e s) := by
  have hopen : exReaderABC.2.fChain = some exChainABC := by decide
  obtain ⟨⟨w1, hhas⟩, hget, -, -⟩ :=
    C9_Has_Get exReaderABC.1 exReaderABC.2 exChainABC "Summary" "run-summary" hopen
  obtain ⟨w2, hg, htr⟩ := hget ["a.root"] "b.root" ["c.root"] (.object "Summary" 7) rfl
    (by decide) (by decide)
  obtain ⟨-, -, hmiss, -⟩ :=
    C9_Has_Get exReaderABC.1 exReaderABC.2 exChainABC "Summary" "missing" hopen
  refine ⟨hopen, ⟨w1, ?_⟩, ⟨w2, hg, ?_⟩, hmiss.2 (by decide)⟩
  · rw [hhas]
    have : (exChainABC.fFiles.any fun f =>
        (exReaderABC.1.holds "Summary" "run-summary" f).isSome) = true := by decide
    rw [this]
  · intro hmem
    rcases htr "c.root" hmem with h | h | h
    · revert h; decide
    · revert h; decide
    · revert h; decide

/-! ### C1: round trip -/

/-- On an open reader, a request for an entry of the chain other than the cached one loads
it with one `GetEntry` call. -/
theorem index_fetch (debug : Bool) (w : World Entry) (r : RootInFile Entry) (c : TChain)
    (i : Nat) (b : String) (e : Entry) (hc : r.fChain = some c)
    (hb : r.fEntryBuffer.isSome = true) (ht : r.fCurrentEntryIndex ≠ i) (hi : i < 2 ^ 63)
    (hrec : (c.records w)[i]? = some (some b, e)) (hbr : c.fBranchAddress = some b) :
    RootInFile.index debug w r i =
      .ok e (w.log (.TChain_GetEntry (i : Int)),
        { r with fCurrentEntryIndex := i, fEntryBuffer := some e }) := by
  have hget : c.GetEntry w (i : Int) = (1, some e) := by
    simp [TChain.GetEntry, hrec, hbr]
  rcases r with ⟨a, c0, t, buf⟩
  simp only at hc hb ht
  subst hc
  have hne : ¬ i = t := fun h => ht h.symm
  cases buf with
  | none => simp at hb
  | some v =>
    cases debug <;>
      simp [RootInFile.index, RootInFile.IO_ROOTFILE_CHECK, RootInFile.Check, hne, hget,
        toLong64_small i hi]

/-- From index `k` on, with enough steps allowed, the loop of `ReadAll` appends the records
from `k` to the end. -/
theorem readLoop_spec (debug : Bool) (a : Nat) (c : TChain) (b : String) (S : List Entry)
    (hS : S.length < 2 ^ 63) (hbr : c.fBranchAddress = some b) (fuel : Nat) :
    ∀ (k : Nat) (w : World Entry) (r : RootInFile Entry) (acc : List Entry),
      k ≤ S.length → S.length - k < fuel → r.fChain = some c → r.fEntryBuffer.isSome = true →
      r.fCurrentEntryIndex ≠ k → c.records w = S.map (fun e => (some b, e)) →
      ∃ w1 r1, RootInFile.readLoop debug fuel w r { fFile := a, fIndex := k }
        { fFile := a, fIndex := S.length } acc = .ok (acc ++ S.drop k) (w1, r1) := by
  induction fuel with
  | zero => intro k w r acc _ h; omega
  | succ fuel ih =>
    intro k w r acc hk hfuel hc hb ht hrec
    by_cases hkn : k = S.length
    · subst hkn
      refine ⟨w, r, ?_⟩
      have hne : Iterator.ne { fFile := a, fIndex := S.length } { fFile := a, fIndex := S.length }
          = .ok false := by
        simp [Iterator.ne, Iterator.eq, Iterator.IsSameFile]
      rw [RootInFile.readLoop]
      simp only [hne, List.drop_length, List.append_nil]
    · have hlt : k < S.length := by omega
      have hget : (c.records w)[k]? = some (some b, S[k]) := by
        rw [hrec]
        simp [List.getElem?_map, List.getElem?_eq_getElem hlt]
      have hidx := index_fetch debug w r c k b S[k] hc hb ht (by omega) hget hbr
      have hinc : (k + 1) % 2 ^ 64 = k + 1 := Nat.mod_eq_of_lt (by omega)
      obtain ⟨w1, r1, h1⟩ := ih (k + 1) (w.log (.TChain_GetEntry (k : Int)))
        { r with fCurrentEntryIndex := k, fEntryBuffer := some S[k] } (acc ++ [S[k]])
        (by omega) (by omega) hc rfl (by simp) (by rw [← hrec]; rfl)
      refine ⟨w1, r1, ?_⟩
      have hdrop : S.drop k = S[k] :: S.drop (k + 1) := List.drop_eq_getElem_cons hlt
      have hne : Iterator.ne { fFile := a, fIndex := k } { fFile := a, fIndex := S.length }
          = .ok true := by
        simp [Iterator.ne, Iterator.eq, Iterator.IsSameFile, hkn]
      have hnext : Iterator.inc { fFile := a, fIndex := k } = { fFile := a, fIndex := k + 1 } := by
        simp only [Iterator.inc, hinc]
      rw [RootInFile.readLoop]
      simp only [hne, hidx, hnext, h1, hdrop, List.append_assoc, List.singleton_append]

/-- On an open writer with a bound branch, `Fill` of a sequence appends it to the tree. -/
theorem FillAll_spec (debug : Bool) (f : TFile Entry) (b : String) (hz : f.zombie = false)
    (ho : f.isOpen = true) (S : List Entry) :
    ∀ (w : World Entry) (t : TTree Entry) (p : Option Entry), t.fBranch = some b →
      ∃ w1 p1, RootOutFile.FillAll debug w { fFile := some f, fTree := some t, fEntryPtr := p } S
          = .ok () (w1, { fFile := some f,
                          fTree := some { t with fEntries := t.fEntries ++ S },
                          fEntryPtr := p1 }) ∧
        w1.disk = w.disk := by
  induction S with
  | nil => intro w t p _; exact ⟨w, p, by simp [RootOutFile.FillAll], rfl⟩
  | cons e S ih =>
    intro w t p hb
    obtain ⟨w1, p1, h1, h2⟩ := ih (w.log .TTree_Fill) { t with fEntries := t.fEntries ++ [e] }
      (some e) hb
    refine ⟨w1, p1, ?_, h2⟩
    have hfill : RootOutFile.Fill debug w { fFile := some f, fTree := some t, fEntryPtr := p } e
        = .ok () (w.log .TTree_Fill,
            { fFile := some f, fTree := some { t with fEntries := t.fEntries ++ [e] },
              fEntryPtr := some e }) := by
      cases debug <;>
        simp [RootOutFile.Fill, RootOutFile.IO_ROOTFILE_CHECK, RootOutFile.Check, TFile.IsZombie,
          TFile.IsOpen, hz, ho, TTree.Fill, hb]
    rw [RootOutFile.FillAll]
    simp only [hfill, h1, List.append_assoc, List.singleton_append]

/-- On a freshly opened reader over the records `S`, `ReadAll` returns `S`. -/
theorem ReadAll_spec (debug : Bool) (w : World Entry) (r : RootInFile Entry) (c : TChain)
    (b : String) (S : List Entry) (hS : S.length < 2 ^ 63) (hc : r.fChain = some c)
    (hb : r.fEntryBuffer.isSome = true) (ht : r.fCurrentEntryIndex = ULong64_max)
    (hbr : c.fBranchAddress = some b) (hrec : c.records w = S.map (fun e => (some b, e))) :
    ∃ w1 r1, RootInFile.ReadAll debug w r = .ok S (w1, r1) := by
  have hcheck : RootInFile.IO_ROOTFILE_CHECK debug w r = .ok () (w, r) := by
    rcases r with ⟨a, c0, t, buf⟩
    simp only at hc hb
    subst hc
    cases buf with
    | none => simp at hb
    | some v => cases debug <;> simp [RootInFile.IO_ROOTFILE_CHECK, RootInFile.Check]
  have hsize : RootInFile.GetSize debug w r = .ok S.length (w, r) := by
    have hmod : S.length % 2 ^ 64 = S.length := Nat.mod_eq_of_lt (by omega)
    simp only [RootInFile.GetSize, hcheck, hc, TChain.GetEntries, hrec, List.length_map, hmod]
  have hbegin : RootInFile.Begin debug w r = .ok { fFile := r.addr, fIndex := 0 } (w, r) := by
    simp only [RootInFile.Begin, hcheck]
  have hend : RootInFile.End debug w r = .ok { fFile := r.addr, fIndex := S.length } (w, r) := by
    simp only [RootInFile.End, hcheck, hsize]
  obtain ⟨w1, r1, h1⟩ := readLoop_spec debug r.addr c b S hS hbr (2 ^ 64) 0 w r [] (by omega)
    (by omega) hc hb (by rw [ht]; decide) hrec
  refine ⟨w1, r1, ?_⟩
  simp only [RootInFile.ReadAll, hbegin, hend, h1, List.nil_append, List.drop_zero]

/-- Claim C1 (round trip).  On a path where a file can be created and with a dictionary for
`Entry` loaded, for every sequence `S` of fewer than `2 ^ 63` records: constructing a
`RootOutFile`, `Fill(S)`, `Close()`, then constructing a `RootInFile` on the same file with
default tree and branch names and calling `ReadAll()`, all return normally and `ReadAll()`
yields exactly `S`.  Holds with and without `IO_ROOTFILE_DEBUG`. -/
theorem C1_round_trip [EntryClass Entry] (debug : Bool) (w : World Entry) (file : String)
    (compression buffSize : Int) (addr : Nat) (skipRecovered verbose : Bool) (S : List Entry)
    (hname : file ≠ "") (hfree : file ∉ w.locked) (hdict : w.dictionary = true)
    (hlen : S.length < 2 ^ 63) :
    ∃ w1 o1 w2 o2 w3 r3 w4 r4,
      RootOutFile.new w file compression buffSize = .ok () (w1, o1) ∧
      RootOutFile.FillAll debug w1 o1 S = .ok () (w2, o2) ∧
      RootInFile.new addr (RootOutFile.Close w2 o2).1 [file] "" "" false skipRecovered verbose
        = .ok () (w3, r3) ∧
      RootInFile.ReadAll debug w3 r3 = .ok S (w4, r4) := by
  have hdict2 : ∀ f : TFile Entry, (w.store file f).dictionary = true := fun _ => hdict
  have hnew : RootOutFile.new w file compression buffSize = .ok ()
      (w.store file { fName := file, zombie := true, recovered := false, isOpen := true,
                      writable := false, keys := [] },
       { fFile := some { fName := file, zombie := false, recovered := false, isOpen := true,
                         writable := true, keys := [] },
         fTree := some { fName := EntryClass.Class_Name Entry ++ "Tree",
                         fBranch := some (EntryClass.Class_Name Entry), fEntries := [] },
         fEntryPtr := some EntryClass.construct }) := by
    simp [RootOutFile.new, RootOutFile.Open, TFile.recreate, hname, hfree, TTree.Branch, hdict2,
      RootOutFile.Check, TFile.IsZombie, TFile.IsOpen, RootOutFile.init, TTree.new]
  obtain ⟨w2, p2, hfill, -⟩ := FillAll_spec debug
    { fName := file, zombie := false, recovered := false, isOpen := true, writable := true,
      keys := [] } (EntryClass.Class_Name Entry) rfl rfl S
    (w.store file { fName := file, zombie := true, recovered := false, isOpen := true,
                    writable := false, keys := [] })
    { fName := EntryClass.Class_Name Entry ++ "Tree",
      fBranch := some (EntryClass.Class_Name Entry), fEntries := [] }
    (some EntryClass.construct) rfl
  simp only [List.nil_append] at hfill
  have hclosed : (RootOutFile.Close w2
      { fFile := some { fName := file, zombie := false, recovered := false, isOpen := true,
                        writable := true, keys := [] },
        fTree := some { fName := EntryClass.Class_Name Entry ++ "Tree",
                        fBranch := some (EntryClass.Class_Name Entry), fEntries := S },
        fEntryPtr := p2 }).1.file file =
      some { fName := file, zombie := false, recovered := false, isOpen := true,
             writable := false,
             keys := [(EntryClass.Class_Name Entry ++ "Tree",
                       .tree { fName := EntryClass.Class_Name Entry ++ "Tree",
                               fBranch := some (EntryClass.Class_Name Entry),
                               fEntries := S })] } := by
    simp only [RootOutFile.Close, TFile.IsWritable, if_true, TFile.close, TFile.Write]
    rw [file_congr _ _ (log_disk _ _), file_store _ _ _ hname]
  generalize hwc : (RootOutFile.Close w2
      { fFile := some { fName := file, zombie := false, recovered := false, isOpen := true,
                        writable := true, keys := [] },
        fTree := some { fName := EntryClass.Class_Name Entry ++ "Tree",
                        fBranch := some (EntryClass.Class_Name Entry), fEntries := S },
        fEntryPtr := p2 }).1 = wc at hclosed
  have hopen : RootInFile.new addr wc [file] "" "" false skipRecovered verbose =
      .ok () (wc, { addr := addr,
                    fChain := some { fName := EntryClass.Class_Name Entry ++ "Tree",
                                     fFiles := [file],
                                     fBranchAddress := some (EntryClass.Class_Name Entry),
                                     fBranchStatus := [] },
                    fCurrentEntryIndex := ULong64_max,
                    fEntryBuffer := some EntryClass.construct }) := by
    rw [new_eq]
    simp [treeNameOf, RootInFile.openLoop, TChain.Add, hname, TChain.new,
      TChain.SetBranchAddress]
  have hrec : TChain.records wc
      { fName := EntryClass.Class_Name Entry ++ "Tree", fFiles := [file],
        fBranchAddress := some (EntryClass.Class_Name Entry), fBranchStatus := [] } =
      S.map (fun e => (some (EntryClass.Class_Name Entry), e)) := by
    simp [TChain.records, World.records, hclosed, TFile.GetTree, TFile.GetObjectChecked,
      List.lookup, TObject.ClassName]
  obtain ⟨w4, r4, h4⟩ := ReadAll_spec debug wc
    { addr := addr,
      fChain := some { fName := EntryClass.Class_Name Entry ++ "Tree", fFiles := [file],
                       fBranchAddress := some (EntryClass.Class_Name Entry),
                       fBranchStatus := [] },
      fCurrentEntryIndex := ULong64_max,
      fEntryBuffer := some EntryClass.construct } _ (EntryClass.Class_Name Entry) S hlen rfl rfl
    rfl rfl hrec
  subst hwc
  exact ⟨_, _, _, _, _, _, w4, r4, hnew, hfill, hopen, h4⟩

/-- Witness for C1: the records `[11, 22, 33]` written to `out.root` are read back. -/
theorem C1_round_trip_witness :
    ∃ w1 o1 w2 o2 w3 r3 w4 r4,
      RootOutFile.new exWorld "out.root" 1 900000 = .ok () (w1, o1) ∧
      RootOutFile.FillAll false w1 o1 [11, 22, 33] = .ok () (w2, o2) ∧
      RootInFile.new 1 (RootOutFile.Close w2 o2).1 ["out.root"] "" "" false false false
        = .ok () (w3, r3) ∧
      RootInFile.ReadAll false w3 r3 = .ok [11, 22, 33] (w4, r4) :=
  C1_round_trip false exWorld "out.root" 1 900000 1 false false [11, 22, 33] (by decide)
    (by decide) rfl (by decide)

end Theorems

end io
